import Mathlib

/-!
Verification development for the wazuh-rule-manager repository.

The Python sources (`policy.py`, `manager.py`) are embedded shallowly:

* Python dictionaries (including `OrderedDict` and object `__dict__`s) are
  insertion-ordered association lists with an upsert that replaces the value
  in place when the key is present and appends otherwise.
* Python values that can appear as rule fields or dictionary keys are the
  inductive `PV`: integers, strings (lists of characters), `None`, and
  `Policy.Collection` objects.
* Machine strings are `List Char`; `str.replace`, `str.split('-')` segments
  and the two filename regular expressions of `Policy.Collection.__init__`
  are implemented directly over character lists.
* Fallible Python code returns `Option` or `Except`: an `Except.error`/`none`
  models an uncaught exception at the corresponding program point.
* `float` arithmetic of the level remap is modelled over `ℚ`, with Python's
  `round` (round half to even) made explicit.
-/

/-! ## Ordered-dictionary primitives (Python dict semantics) -/

/-- First-match lookup in an association list (Python `dict` lookup: keys are
unique because `dictUpsert` never duplicates them). -/
def alookup {K V : Type} [DecidableEq K] : List (K × V) → K → Option V
  | [], _ => none
  | (k, v) :: rest, q => if k = q then some v else alookup rest q

/-- Python `d[k] = v`: replace the value of the (unique) existing binding in
place, preserving its position as `dict` and `OrderedDict` do, else append. -/
def dictUpsert {K V : Type} [DecidableEq K] : List (K × V) → K → (v : V) → List (K × V)
  | [], k, v => [(k, v)]
  | (k1, v1) :: rest, k, v =>
    if k1 = k then (k, v) :: rest else (k1, v1) :: dictUpsert rest k v

/-! ## Character-string machinery -/

/-- Decimal digits of a natural number, most significant first; the first
argument is fuel (`n + 1` always suffices). -/
def natDigitsGo : Nat → Nat → List Char → List Char
  | 0, _, acc => acc
  | fuel + 1, n, acc =>
    let acc2 := (Nat.digitChar (n % 10)) :: acc
    if n < 10 then acc2 else natDigitsGo fuel (n / 10) acc2

/-- Decimal representation of a natural number. -/
def natDigits (n : Nat) : List Char := natDigitsGo (n + 1) n []

/-- Python `str(n)` for an integer. -/
def intToChars (n : Int) : List Char :=
  if n < 0 then '-' :: natDigits n.natAbs else natDigits n.toNat

/-- Python `'{:04d}'.format(n)` for a non-negative integer: zero-pad the
decimal form to at least four characters. -/
def format04 (n : Nat) : List Char :=
  List.replicate (4 - (natDigits n).length) '0' ++ natDigits n

/-- Numeric value of a digit string (the behaviour of Python `int` on the
all-digit strings produced by the guarded filename parser). -/
def digitsToNat (s : List Char) : Nat :=
  s.foldl (fun acc c => acc * 10 + (c.toNat - 48)) 0

/-- Python `int(s)` on a simple textual token: an optional sign followed by
one or more ASCII digits; `none` models `ValueError`. -/
def parseNatDigits : List Char → Option Nat
  | s => if s ≠ [] ∧ s.all Char.isDigit then some (digitsToNat s) else none

/-- Python `int(s)` including an optional leading sign. -/
def parseInt : List Char → Option Int
  | '-' :: rest => (parseNatDigits rest).map (fun n => -(n : Int))
  | '+' :: rest => (parseNatDigits rest).map (fun n => (n : Int))
  | s => (parseNatDigits s).map (fun n => (n : Int))

/-- Python `s.replace(pat, rep)` (left-to-right, non-overlapping), with the
remaining input length as structural fuel; every recursive step consumes at
least one character, so fuel `s.length` is exact. -/
def pyReplaceGo (pat rep : List Char) : Nat → List Char → List Char
  | 0, s => s
  | fuel + 1, s =>
    match s with
    | [] => []
    | c :: rest =>
      if pat.isPrefixOf (c :: rest) then
        rep ++ pyReplaceGo pat rep fuel ((c :: rest).drop pat.length)
      else c :: pyReplaceGo pat rep fuel rest

/-- Python `s.replace(pat, rep)`; the patterns appearing in the sources are
non-empty literals, and an empty pattern with empty replacement is the
identity, which the guard returns directly. -/
def pyReplace (pat rep s : List Char) : List Char :=
  if pat = [] then s else pyReplaceGo pat rep s.length s

/-- Python string `<=` between code points, used to model `sorted` on textual
rule identifiers (lexicographic comparison). -/
def lexLe : List Char → List Char → Bool
  | [], _ => true
  | _ :: _, [] => false
  | a :: as, b :: bs =>
    if a.toNat < b.toNat then true
    else if b.toNat < a.toNat then false
    else lexLe as bs

/-! ## Collection identity resolver (`Policy.Collection.__init__`) -/

/-- A character of Python's `\w` class for the ASCII filenames at hand. -/
def isWordChar (c : Char) : Bool := c.isAlphanum || c = '_'

/-- A character of the `[\w-]` class of the filename patterns. -/
def tokChar (c : Char) : Bool := isWordChar c || c = '-'

/-- Suffix constant. -/
def xmlExt : List Char := ".xml".toList

/-- Suffix constant. -/
def rulesSuffix : List Char := "_rules".toList

/-- Matcher for `re.match(r'^\d+-[\w-]+\.xml$', filename)`.  The character
classes of the pattern are pairwise disjoint from the literal characters that
follow them, so the greedy deterministic scan below is equivalent to the
backtracking regular-expression semantics. -/
def matchNumbered (s : List Char) : Bool :=
  let ds := s.takeWhile Char.isDigit
  let rest := s.dropWhile Char.isDigit
  decide (ds ≠ []) &&
    match rest with
    | c :: rest2 =>
      (c == '-') && decide (rest2.takeWhile tokChar ≠ []) &&
        decide (rest2.dropWhile tokChar = xmlExt)
    | [] => false

/-- Matcher for `re.match(r'^[\w-]+\.xml$', filename)`. -/
def matchPlain (s : List Char) : Bool :=
  decide (s.takeWhile tokChar ≠ []) && decide (s.dropWhile tokChar = xmlExt)

/-- Python `filename.split('-')[0]`. -/
def firstSegment (s : List Char) : List Char := s.takeWhile (fun c => c != '-')

/-- Python `filename.split('-')[1]` when the string contains a hyphen: the
characters between the first hyphen and the next hyphen (or the end). -/
def secondSegment (s : List Char) : List Char :=
  ((s.dropWhile (fun c => c != '-')).drop 1).takeWhile (fun c => c != '-')

/-- `Policy.Collection`: filename, derived name, optional priority. -/
structure Collection where
  filename : List Char
  name : List Char
  priority : Option Nat
deriving DecidableEq

/-- `Policy.Collection.__init__`: derive name and priority from the filename;
`none` models the `ValueError` raised when neither convention matches. -/
def mkCollection (filename : List Char) : Option Collection :=
  if matchNumbered filename then
    some ⟨filename,
      pyReplace rulesSuffix [] (pyReplace xmlExt [] (secondSegment filename)),
      some (digitsToNat (firstSegment filename))⟩
  else if matchPlain filename then
    some ⟨filename, pyReplace rulesSuffix [] (pyReplace xmlExt [] filename), none⟩
  else none

/-! ## Python values, rules and rule stores -/

/-- Python values that occur as rule fields and rule-store keys: integers
(spreadsheet cells), strings (document attributes and cells), `None`, and
`Policy.Collection` objects. -/
inductive PV where
  | int (n : Int)
  | str (t : List Char)
  | null
  | coll (c : Collection)
deriving DecidableEq

/-- `PV.isInt` tests for the integer constructor. -/
def PV.isInt : PV → Bool
  | .int _ => true
  | _ => false

/-- `PV.isStr` tests for the string constructor. -/
def PV.isStr : PV → Bool
  | .str _ => true
  | _ => false

/-- Dictionary-key constants. -/
def idKey : List Char := "id".toList

/-- Dictionary-key constants. -/
def levelKey : List Char := "level".toList

/-- Dictionary-key constants. -/
def collectionKey : List Char := "collection".toList

/-- `Policy.Rule`: the object's `__dict__`, an insertion-ordered mapping from
field name to value.  `Rule.__init__` first sets `id = None` and `level = 0`
and then upserts every pair of the constructor argument. -/
structure PolicyRule where
  fields : List (List Char × PV)
deriving DecidableEq

instance {e a : Type} [DecidableEq e] [DecidableEq a] : DecidableEq (Except e a) := fun x y =>
  match x, y with
  | .ok u, .ok v => if h : u = v then isTrue (by rw [h]) else isFalse (by intro hc; cases hc; exact h rfl)
  | .error u, .error v => if h : u = v then isTrue (by rw [h]) else isFalse (by intro hc; cases hc; exact h rfl)
  | .ok _, .error _ => isFalse (by intro hc; cases hc)
  | .error _, .ok _ => isFalse (by intro hc; cases hc)

/-- `rule.id` (the key is always present: `__init__` seeds it). -/
def PolicyRule.id (r : PolicyRule) : PV := (alookup r.fields idKey).getD PV.null

/-- `rule.level` (the key is always present: `__init__` seeds it). -/
def PolicyRule.level (r : PolicyRule) : PV := (alookup r.fields levelKey).getD (PV.int 0)

/-- `rule.collection` (set by both store builders before construction). -/
def ruleCollection (r : PolicyRule) : PV := (alookup r.fields collectionKey).getD PV.null

/-- `Policy.rules`: the insertion-ordered rule store. -/
abbrev Store : Type := List (PV × PolicyRule)

/-- `Policy.Rule.__init__(kv)`: fail with `ValueError` unless the keys `id`,
`level` and `collection` are all present in `kv` (values may be `None`), then
build the `__dict__` by upserting `kv` over the seeded defaults. -/
def mkRule (kv : List (List Char × PV)) : Except Unit PolicyRule :=
  if idKey ∈ kv.map Prod.fst ∧ levelKey ∈ kv.map Prod.fst ∧ collectionKey ∈ kv.map Prod.fst then
    .ok ⟨kv.foldl (fun d p => dictUpsert d p.1 p.2) [(idKey, PV.null), (levelKey, PV.int 0)]⟩
  else .error ()

/-! ## Document-side model (`RuleManager`) -/

/-- One `<rule>` element: its attributes and its child elements
(tag and optional text), as the document-tree collaborator reports them. -/
structure XRule where
  attrs : List (List Char × List Char)
  children : List (List Char × Option (List Char))
deriving DecidableEq

/-- `rule_element.get(k)`. -/
def getAttr (e : XRule) (k : List Char) : Option (List Char) := alookup e.attrs k

/-- `rule_element.set(k, v)`: replace in place or append, as `lxml` does. -/
def setAttr (e : XRule) (k v : List Char) : XRule :=
  { e with attrs := dictUpsert e.attrs k v }

/-- `RuleManager.Collection` as consumed by `Policy.from_rules` and
`RuleManager.apply_policy`: the file's base name and the flat rule-node list
returned by `findall('./group/rule')`. -/
structure MCollection where
  filename : List Char
  rules : List XRule
deriving DecidableEq

/-- An attribute value as the Python code sees it (`None` when absent). -/
def optToPV : Option (List Char) → PV
  | some t => PV.str t
  | none => PV.null

/-- The `rule_contents` dictionary built for one document rule in
`Policy.from_rules`: child tag/text pairs first, then `collection`, then the
`level` and `id` attributes (later upserts overwrite same-named children). -/
def ruleContents (c : Collection) (e : XRule) : List (List Char × PV) :=
  let base := e.children.foldl (fun d p => dictUpsert d p.1 (optToPV p.2)) []
  let d1 := dictUpsert base collectionKey (PV.coll c)
  let d2 := dictUpsert d1 levelKey (optToPV (getAttr e levelKey))
  dictUpsert d2 idKey (optToPV (getAttr e idKey))

/-- Line 67 of `policy.py`: `self.rules[new_rule.id] = new_rule`. -/
def insertFromRules (st : Store) (r : PolicyRule) : Store := dictUpsert st r.id r

/-- Lines 265–269 of `policy.py` (`Policy._load`): raise `IndexError` naming
the new and the previously stored rule on a duplicate identifier, else store. -/
def loadInsert (st : Store) (r : PolicyRule) : Except (PolicyRule × PolicyRule) Store :=
  match alookup st r.id with
  | some old => .error (r, old)
  | none => .ok (dictUpsert st r.id r)

/-- The rule loop of `Policy.from_rules` for one collection. -/
def from_rulesColl (c : Collection) : Store → List XRule → Except Unit Store
  | st, [] => .ok st
  | st, e :: rest =>
    match mkRule (ruleContents c e) with
    | .error u => .error u
    | .ok r => from_rulesColl c (insertFromRules st r) rest

/-- The collection loop of `Policy.from_rules`; constructing the
`Policy.Collection` can raise on a malformed filename. -/
def from_rulesGo : Store → List MCollection → Except Unit Store
  | st, [] => .ok st
  | st, mc :: rest =>
    match mkCollection mc.filename with
    | none => .error ()
    | some c =>
      match from_rulesColl c st mc.rules with
      | .error u => .error u
      | .ok st2 => from_rulesGo st2 rest

/-- `Policy.from_rules`, starting from the fresh empty store of a new
`Policy` object. -/
def from_rules (m : List MCollection) : Except Unit Store := from_rulesGo [] m

/-! ## Identifier lookup (`Policy.get_rule_by_id`) -/

/-- Result of Python `int(x)` on a `PV`: success, `ValueError` (string that
does not parse), or `TypeError` (`None` or an object). -/
inductive PyIntResult where
  | ok (n : Int)
  | valueError
  | typeError
deriving DecidableEq

/-- Python `int(x)` on a `PV`. -/
def pyIntOf : PV → PyIntResult
  | .int n => .ok n
  | .str t =>
    match parseInt t with
    | some n => .ok n
    | none => .valueError
  | .null => .typeError
  | .coll _ => .typeError

/-- Python `str(x)` on a `PV` (`Collection.__str__` returns the filename). -/
def pyStrV : PV → PV
  | .int n => .str (intToChars n)
  | .str t => .str t
  | .null => .str "None".toList
  | .coll c => .str c.filename

/-- `Policy.get_rule_by_id`, with the store passed through and returned to
record that each dictionary operation it performs leaves the store as it
found it.  `self.rules.get(int(rule_id))` returns `None` on a missing key
(only `int()` itself can raise the caught `ValueError`), so the textual
fallback runs only when `rule_id` fails integer conversion; a `TypeError`
from `int(None)` is not caught and aborts (`Except.error`). -/
def get_rule_by_idT (store : Store) (rule_id : PV) : Except Unit (Option PolicyRule × Store) :=
  match pyIntOf rule_id with
  | .ok n => .ok (alookup store (PV.int n), store)
  | .valueError =>
    match alookup store rule_id with
    | some r => .ok (some r, store)
    | none => .ok (alookup store (pyStrV rule_id), store)
  | .typeError => .error ()

/-- `Policy.get_rule_by_id`, result only. -/
def get_rule_by_id (store : Store) (rule_id : PV) : Except Unit (Option PolicyRule) :=
  (get_rule_by_idT store rule_id).map Prod.fst

/-! ## Level remapper (`manager.py` line 91) -/

/-- Python `round`: nearest integer, ties to the even neighbour. -/
def roundHalfEven (q : ℚ) : Int :=
  let f := ⌊q⌋
  let frac := q - (f : ℚ)
  if frac < 1/2 then f
  else if 1/2 < frac then f + 1
  else if f % 2 = 0 then f else f + 1

/-- `round((old_level - 1) / (old_max_level - 1) * (new_max_level - 1) + 1)`,
the computed level mapping applied when no policy entry exists; the float
division is modelled over `ℚ` (exact for the reference ranges). -/
def remap (oldLevel oldMax newMax : Int) : Int :=
  roundHalfEven (((oldLevel : ℚ) - 1) / ((oldMax : ℚ) - 1) * ((newMax : ℚ) - 1) + 1)

/-! ## Reconciler (`RuleManager.apply_policy`) -/

/-- Attribute-value constants of the reconciler. -/
def overwriteKey : List Char := "overwrite".toList

/-- Attribute-value constants of the reconciler. -/
def yesVal : List Char := "yes".toList

/-- Per-rule reconciliation outcome, as classified (and printed) by
`apply_policy`. -/
inductive Outcome where
  | noChange
  | upgrade
  | downgrade
deriving DecidableEq

/-- The body of `apply_policy` for one document rule, with the policy store
threaded through and returned.  `none` models an uncaught exception: a
missing or non-numeric `level` attribute, `int(None)` inside the identifier
lookup, a non-numeric policy level, or the `ZeroDivisionError` of the
computed mapping at `old_max_level = 1`. -/
def applyRuleS (p : Store) (omx nmx : Int) (ow : Bool) (e : XRule) :
    Option ((XRule × Outcome) × Store) :=
  let rid := optToPV (getAttr e idKey)
  match getAttr e levelKey with
  | none => none
  | some lvlStr =>
    match parseInt lvlStr with
    | none => none
    | some oldLevel =>
      match get_rule_by_idT p rid with
      | .error _ => none
      | .ok (rulePolicy, p1) =>
        let newLevel? : Option Int :=
          match rulePolicy with
          | some r =>
            match pyIntOf r.level with
            | .ok n => some n
            | _ => none
          | none => if omx = 1 then none else some (remap oldLevel omx nmx)
        match newLevel? with
        | none => none
        | some newLevel =>
          let e1 := setAttr e levelKey (intToChars newLevel)
          let e2 := if ow then setAttr e1 overwriteKey yesVal else e1
          let oc : Outcome :=
            if newLevel = oldLevel then .noChange
            else if oldLevel < newLevel then .upgrade
            else .downgrade
          some ((e2, oc), p1)

/-- The inner rule loop of `apply_policy` over one collection: each mutated
element is collected in order, the policy store threading through. -/
def applyRulesGo (omx nmx : Int) (ow : Bool) : Store → List XRule → Option (List XRule × Store)
  | p, [] => some ([], p)
  | p, e :: rest =>
    (applyRuleS p omx nmx ow e).bind fun x =>
      (applyRulesGo omx nmx ow x.2 rest).map fun w => (x.1.1 :: w.1, w.2)

/-- The collection loop of `apply_policy`. -/
def applyPolicyGo (omx nmx : Int) (ow : Bool) :
    Store → List MCollection → Option (List MCollection × Store)
  | p, [] => some ([], p)
  | p, mc :: rest =>
    (applyRulesGo omx nmx ow p mc.rules).bind fun x =>
      (applyPolicyGo omx nmx ow x.2 rest).map fun w => ({ mc with rules := x.1 } :: w.1, w.2)

/-- `RuleManager.apply_policy(policy, old_max_level, new_max_level,
overwrite)`: mutate every document rule's `level` (and optionally
`overwrite`) attribute; returns the mutated document collections and the
policy store as it stands after the pass. -/
def apply_policy (p : Store) (omx nmx : Int) (ow : Bool) (m : List MCollection) :
    Option (List MCollection × Store) :=
  applyPolicyGo omx nmx ow p m

/-! ## Priority fixup (`Policy.fixup`) -/

/-- The assignment loop of `Policy.fixup`: the accumulator is
`last_priority`; a collection without a priority receives the accumulator
plus 100 and is renamed to `'{:04d}-{}_rules.xml'.format(priority, name)`. -/
def fixupGo (last : Nat) : List Collection → List Collection
  | [] => []
  | c :: rest =>
    match c.priority with
    | some _ => c :: fixupGo last rest
    | none =>
      let p := last + 100
      ⟨format04 p ++ '-' :: c.name ++ rulesSuffix ++ xmlExt, c.name, some p⟩ :: fixupGo p rest

/-- `Policy.fixup` over the collections in iteration order: `none` models the
`ValueError` of `max([])` when no collection carries a priority. -/
def fixup (cs : List Collection) : Option (List Collection) :=
  match (cs.filterMap Collection.priority).max? with
  | none => none
  | some m => some (fixupGo m cs)

/-- Modelled from the spec: "For every collection still missing a priority,
assign `running_max += 100` … producing strictly increasing, gap-of-100
priorities for the unresolved set, in the iteration order the caller
supplies", with the filename "regenerated as
`<4-digit-zero-padded-priority>-<name>_rules.xml`".  The `k`-th unresolved
collection (0-based) receives `m + 100 * (k + 1)` where `m` is the maximum of
the already-assigned priorities. -/
def specAssignGo (m : Nat) (k : Nat) : List Collection → List Collection
  | [] => []
  | c :: rest =>
    match c.priority with
    | some _ => c :: specAssignGo m k rest
    | none =>
      let p := m + 100 * (k + 1)
      ⟨format04 p ++ '-' :: c.name ++ rulesSuffix ++ xmlExt, c.name, some p⟩ :: specAssignGo m (k + 1) rest

/-! ## Single-file serializer (`RuleManager._write_file`) -/

/-- Serializer-side view of a loaded `RuleManager.Collection`: the file's
base name and the serialized text of each child of the document root, as
produced by the external `etree.tostring` collaborator. -/
structure SCollection where
  filename : List Char
  body : List (List Char)
deriving DecidableEq

/-- Entity constants of the write-back normalization. -/
def gtEnt : List Char := "&gt;".toList

/-- Entity constants of the write-back normalization. -/
def gtChar : List Char := ">".toList

/-- The bytes `_write_file` emits for one collection:
`etree.tostring(elem).replace(b'&gt;', b'>')` for each root child. -/
def collectionBytes (c : SCollection) : List Char :=
  (c.body.map (pyReplace gtEnt gtChar)).flatten

/-- `RuleManager._write_file`: the byte stream written to the single output
file, produced by iterating `self.collections` in their stored order. -/
def writeFileBytes : List SCollection → List Char
  | [] => []
  | c :: rest => collectionBytes c ++ writeFileBytes rest

/-- The priority the collection identity resolver would derive from a
serializer-side collection's filename. -/
def collPriority (c : SCollection) : Option Nat :=
  match mkCollection c.filename with
  | some k => k.priority
  | none => none

/-! ## Spreadsheet row ordering (`Policy.get_rules_by_collection`) -/

/-- Constructor rank used by the unreachable mixed cases of `pvLeB`. -/
def pvRank : PV → Nat
  | .null => 0
  | .int _ => 1
  | .str _ => 2
  | .coll _ => 3

/-- The `sorted` key order on rules: compare the `id` fields, numerically for
two integers and lexicographically (by code point) for two strings; the
remaining constructor-rank cases make the relation total but are reachable
only from stores that Python's `sorted` would reject with `TypeError`. -/
def pvLeB : PV → PV → Bool
  | .int a, .int b => a ≤ b
  | .str a, .str b => lexLe a b
  | a, b => pvRank a ≤ pvRank b

/-- The rule ordering of `sorted(ret, key=lambda k: k.id)`. -/
def ruleLe (a b : PolicyRule) : Prop := pvLeB a.id b.id = true

instance : DecidableRel ruleLe := fun a b =>
  inferInstanceAs (Decidable (pvLeB a.id b.id = true))

/-- Python `sorted(ret, key=lambda k: k.id)`: succeeds (as a stable ascending
sort) when the identifiers are comparable — all integers, all strings, or at
most one element — and raises `TypeError` (`none`) otherwise. -/
def pySortRules (l : List PolicyRule) : Option (List PolicyRule) :=
  if l.all (fun r => r.id.isInt) then some (List.insertionSort ruleLe l)
  else if l.all (fun r => r.id.isStr) then some (List.insertionSort ruleLe l)
  else if l.length ≤ 1 then some (List.insertionSort ruleLe l)
  else none

/-- `Policy.get_rules_by_collection`: the rules of the store whose
`collection` field is the given collection, in store order, sorted by `id`
ascending; this is exactly the row order written into the collection's
spreadsheet sheet by `Policy.write`. -/
def get_rules_by_collection (p : Store) (c : Collection) : Option (List PolicyRule) :=
  pySortRules ((p.map Prod.snd).filter (fun r => decide (ruleCollection r = PV.coll c)))

/-! ## Concrete fixtures used by counterexamples and witnesses -/

/-- A policy collection for hand-built stores. -/
def cX : Collection := ⟨("x_rules.xml".toList), ("x".toList), none⟩

/-- A policy rule stored under the textual identifier `"100"`, as `_load`
produces when the spreadsheet cell holds text. -/
def rX : PolicyRule :=
  ⟨[(idKey, PV.str ("100".toList)), (levelKey, PV.int 5), (collectionKey, PV.coll cX)]⟩

/-- A policy store whose only key is the textual identifier `"100"`. -/
def store1 : Store := [(PV.str ("100".toList), rX)]

/-- A document collection carrying two rules with the same identifier. -/
def mColl2 : MCollection :=
  ⟨("0001-test_rules.xml".toList),
   [⟨[(idKey, ("100".toList)), (levelKey, ("1".toList))], []⟩,
    ⟨[(idKey, ("100".toList)), (levelKey, ("2".toList))], []⟩]⟩

/-- A document collection whose single rule has no `id` attribute. -/
def mColl7 : MCollection :=
  ⟨("0001-test_rules.xml".toList), [⟨[(levelKey, ("5".toList))], []⟩]⟩

/-- Serializer-side collections with descending filename priorities. -/
def sCollB : SCollection := ⟨("0020-b_rules.xml".toList), [("<gB/>".toList)]⟩

/-- Serializer-side collections with descending filename priorities. -/
def sCollA : SCollection := ⟨("0010-a_rules.xml".toList), [("<gA/>".toList)]⟩

/-- The fixup example of the specification: one collection with priority 5
followed by two without, in iteration order. -/
def csFix : List Collection :=
  [⟨("0005-a_rules.xml".toList), ("a".toList), some 5⟩,
   ⟨("b.xml".toList), ("b".toList), none⟩,
   ⟨("c.xml".toList), ("c".toList), none⟩]

/-- A policy store entry under the integer key 300 with integer level 4. -/
def r300 : PolicyRule :=
  ⟨[(idKey, PV.int 300), (levelKey, PV.int 4), (collectionKey, PV.coll cX)]⟩

/-- A policy store keyed by the integer 300. -/
def p300 : Store := [(PV.int 300, r300)]

/-- A document rule whose level already equals the policy level. -/
def e300 : XRule := ⟨[(idKey, ("300".toList)), (levelKey, ("4".toList))], []⟩

/-- A one-collection manager for the reconciliation witnesses. -/
def m300 : List MCollection := [⟨("0001-a_rules.xml".toList), [e300]⟩]

/-- The reconciled form of `e300`: level rewritten to the (identical) policy
level and the overwrite marker added. -/
def e300Res : XRule :=
  ⟨[(idKey, ("300".toList)), (levelKey, ("4".toList)), (overwriteKey, yesVal)], []⟩

/-- A policy store entry under the integer key 100 with integer level 7. -/
def rUp : PolicyRule :=
  ⟨[(idKey, PV.int 100), (levelKey, PV.int 7), (collectionKey, PV.coll cX)]⟩

/-- A policy store keyed by the integer 100. -/
def pUp : Store := [(PV.int 100, rUp)]

/-- A document rule whose level 3 differs from the policy level 7. -/
def eUp : XRule := ⟨[(idKey, ("100".toList)), (levelKey, ("3".toList))], []⟩

/-- The reconciled form of `eUp`: level rewritten to the policy level 7. -/
def eUpRes : XRule := ⟨[(idKey, ("100".toList)), (levelKey, ("7".toList))], []⟩

/-- A collection for the row-ordering fixture. -/
def cLex : Collection := ⟨("p_rules.xml".toList), ("p".toList), none⟩

/-- A rule with textual identifier `"9"`. -/
def rNine : PolicyRule :=
  ⟨[(idKey, PV.str ("9".toList)), (levelKey, PV.int 1), (collectionKey, PV.coll cLex)]⟩

/-- A rule with textual identifier `"10"`. -/
def rTen : PolicyRule :=
  ⟨[(idKey, PV.str ("10".toList)), (levelKey, PV.int 2), (collectionKey, PV.coll cLex)]⟩

/-- A store holding `rNine` before `rTen` in insertion order. -/
def pLex : Store := [(PV.str ("9".toList), rNine), (PV.str ("10".toList), rTen)]



/-! ## Dictionary lemmas -/

theorem alookup_dictUpsert {K V : Type} [DecidableEq K] (d : List (K × V)) (k : K) (v : V)
    (q : K) :
    alookup (dictUpsert d k v) q = if q = k then some v else alookup d q := by
  induction d with
  | nil =>
    by_cases h : q = k
    · subst h; simp [dictUpsert, alookup]
    · have h2 : ¬ k = q := fun hh => h hh.symm
      simp [dictUpsert, alookup, h, h2]
  | cons p rest ih =>
    obtain ⟨k1, v1⟩ := p
    by_cases h1 : k1 = k
    · simp only [dictUpsert, if_pos h1, alookup]
      by_cases h : q = k
      · subst h; simp
      · have h2 : ¬ k = q := fun hh => h hh.symm
        have h3 : ¬ k1 = q := fun hh => h (hh.symm.trans h1)
        simp [h, h2, h3]
    · simp only [dictUpsert, if_neg h1, alookup, ih]
      by_cases h2 : k1 = q
      · have h3 : ¬ q = k := fun hh => h1 (h2.trans hh)
        simp [h2, h3]
      · by_cases h3 : q = k <;> simp [h1, h2, h3]

theorem keys_dictUpsert_present {K V : Type} [DecidableEq K] (d : List (K × V)) (k : K) (v : V)
    (h : (alookup d k).isSome = true) :
    (dictUpsert d k v).map Prod.fst = d.map Prod.fst := by
  induction d with
  | nil => simp [alookup] at h
  | cons p rest ih =>
    obtain ⟨k1, v1⟩ := p
    by_cases h1 : k1 = k
    · simp [dictUpsert, h1]
    · have h2 : (alookup rest k).isSome = true := by
        simpa [alookup, h1] using h
      simp [dictUpsert, h1, ih h2]

theorem mem_keys_of_alookup {K V : Type} [DecidableEq K] (d : List (K × V)) (q : K) (v : V)
    (h : alookup d q = some v) : q ∈ d.map Prod.fst := by
  induction d with
  | nil => simp [alookup] at h
  | cons p rest ih =>
    obtain ⟨k1, v1⟩ := p
    by_cases h1 : k1 = q
    · subst h1; simp
    · simp [alookup, h1] at h
      simp [ih h]

theorem pair_mem_dictUpsert_self {K V : Type} [DecidableEq K] (d : List (K × V)) (k : K)
    (v : V) : (k, v) ∈ dictUpsert d k v := by
  induction d with
  | nil => simp [dictUpsert]
  | cons p rest ih =>
    obtain ⟨k1, v1⟩ := p
    by_cases h1 : k1 = k <;> simp [dictUpsert, h1, ih]

theorem pair_mem_dictUpsert_other {K V : Type} [DecidableEq K] (d : List (K × V)) (k q : K)
    (v w : V) (hne : q ≠ k) (h : (q, w) ∈ d) : (q, w) ∈ dictUpsert d k v := by
  induction d with
  | nil => simp at h
  | cons p rest ih =>
    obtain ⟨k1, v1⟩ := p
    rcases List.mem_cons.mp h with heq | hmem
    · have hq : q = k1 := congrArg Prod.fst heq
      by_cases h1 : k1 = k
      · exact absurd (hq.trans h1) hne
      · simp only [dictUpsert, if_neg h1]
        exact List.mem_cons.mpr (Or.inl heq)
    · by_cases h1 : k1 = k
      · simp only [dictUpsert, if_pos h1]
        exact List.mem_cons.mpr (Or.inr hmem)
      · simp only [dictUpsert, if_neg h1]
        exact List.mem_cons.mpr (Or.inr (ih hmem))

theorem mem_keys_dictUpsert_inv {K V : Type} [DecidableEq K] (d : List (K × V)) (k q : K)
    (v : V) (h : q ∈ (dictUpsert d k v).map Prod.fst) : q ∈ d.map Prod.fst ∨ q = k := by
  induction d with
  | nil =>
    simp only [dictUpsert, List.map_cons, List.map_nil, List.mem_singleton] at h
    exact Or.inr h
  | cons p rest ih =>
    obtain ⟨k1, v1⟩ := p
    by_cases h1 : k1 = k
    · simp only [dictUpsert, if_pos h1, List.map_cons, List.mem_cons] at h
      rcases h with heq | hmem
      · exact Or.inr heq
      · exact Or.inl (by simp only [List.map_cons, List.mem_cons]; exact Or.inr hmem)
    · simp only [dictUpsert, if_neg h1, List.map_cons, List.mem_cons] at h
      rcases h with heq | hmem
      · exact Or.inl (by simp only [List.map_cons, List.mem_cons]; exact Or.inl heq)
      · rcases ih hmem with hm | he
        · exact Or.inl (by simp only [List.map_cons, List.mem_cons]; exact Or.inr hm)
        · exact Or.inr he

theorem nodupKeys_dictUpsert {K V : Type} [DecidableEq K] (d : List (K × V)) (k : K) (v : V)
    (h : (d.map Prod.fst).Nodup) : ((dictUpsert d k v).map Prod.fst).Nodup := by
  induction d with
  | nil => simp [dictUpsert]
  | cons p rest ih =>
    obtain ⟨k1, v1⟩ := p
    simp only [List.map_cons] at h
    rcases List.nodup_cons.mp h with ⟨hnotin, hrest⟩
    by_cases h1 : k1 = k
    · simp only [dictUpsert, if_pos h1, List.map_cons]
      exact List.nodup_cons.mpr ⟨h1 ▸ hnotin, hrest⟩
    · simp only [dictUpsert, if_neg h1, List.map_cons]
      refine List.nodup_cons.mpr ⟨?_, ih hrest⟩
      intro hmem
      rcases mem_keys_dictUpsert_inv rest k k1 v hmem with hm | he
      · exact hnotin hm
      · exact h1 he

theorem alookup_foldl_notmem {K V : Type} [DecidableEq K] (kv : List (K × V))
    (init : List (K × V)) (q : K) (h : q ∉ kv.map Prod.fst) :
    alookup (kv.foldl (fun d p => dictUpsert d p.1 p.2) init) q = alookup init q := by
  induction kv generalizing init with
  | nil => simp
  | cons p rest ih =>
    obtain ⟨k1, v1⟩ := p
    have hq1 : q ≠ k1 := by
      intro he; exact h (by simp [he])
    have hrest : q ∉ rest.map Prod.fst := by
      intro hm; exact h (by simp [hm])
    simp only [List.foldl_cons]
    rw [ih _ hrest, alookup_dictUpsert, if_neg hq1]

theorem alookup_foldl_of_mem_nodup {K V : Type} [DecidableEq K] (kv : List (K × V))
    (init : List (K × V)) (q : K) (v : V) (hnd : (kv.map Prod.fst).Nodup)
    (hmem : (q, v) ∈ kv) :
    alookup (kv.foldl (fun d p => dictUpsert d p.1 p.2) init) q = some v := by
  induction kv generalizing init with
  | nil => simp at hmem
  | cons p rest ih =>
    obtain ⟨k1, v1⟩ := p
    simp only [List.map_cons] at hnd
    rcases List.nodup_cons.mp hnd with ⟨hnotin, hrest⟩
    rcases List.mem_cons.mp hmem with heq | hm
    · have hq : q = k1 := congrArg Prod.fst heq
      have hv : v = v1 := congrArg Prod.snd heq
      subst hq; subst hv
      simp only [List.foldl_cons]
      rw [alookup_foldl_notmem _ _ _ hnotin, alookup_dictUpsert, if_pos rfl]
    · simp only [List.foldl_cons]
      exact ih _ hrest hm

/-! ## Attribute lemmas -/

theorem getAttr_setAttr_self (e : XRule) (k v : List Char) :
    getAttr (setAttr e k v) k = some v := by
  simp [getAttr, setAttr, alookup_dictUpsert]

theorem getAttr_setAttr_other (e : XRule) (k v q : List Char) (h : q ≠ k) :
    getAttr (setAttr e k v) q = getAttr e q := by
  simp [getAttr, setAttr, alookup_dictUpsert, h]

/-! ## Scanning lemmas -/

theorem takeWhile_append_all (p : Char → Bool) (l r : List Char)
    (h : ∀ c ∈ l, p c = true) : (l ++ r).takeWhile p = l ++ r.takeWhile p := by
  induction l with
  | nil => simp
  | cons c cs ih =>
    have hc : p c = true := h c (List.mem_cons_self c cs)
    simp [List.takeWhile_cons, hc, ih (fun x hx => h x (List.mem_cons_of_mem c hx))]

theorem dropWhile_append_all (p : Char → Bool) (l r : List Char)
    (h : ∀ c ∈ l, p c = true) : (l ++ r).dropWhile p = r.dropWhile p := by
  induction l with
  | nil => simp
  | cons c cs ih =>
    have hc : p c = true := h c (List.mem_cons_self c cs)
    simp [List.dropWhile_cons, hc, ih (fun x hx => h x (List.mem_cons_of_mem c hx))]

theorem takeWhile_all (p : Char → Bool) (l : List Char) (h : ∀ c ∈ l, p c = true) :
    l.takeWhile p = l := by
  simpa using takeWhile_append_all p l [] h

theorem takeWhile_append_stop (p : Char → Bool) (l r : List Char)
    (h : ∃ x ∈ l, p x = false) : (l ++ r).takeWhile p = l.takeWhile p := by
  induction l with
  | nil => simp at h
  | cons c cs ih =>
    by_cases hc : p c = true
    · have h2 : ∃ x ∈ cs, p x = false := by
        rcases h with ⟨x, hx, hpx⟩
        rcases List.mem_cons.mp hx with he | hm
        · rw [he] at hpx; rw [hpx] at hc; cases hc
        · exact ⟨x, hm, hpx⟩
      simp [List.takeWhile_cons, hc, ih h2]
    · have hc2 : p c = false := by
        cases hb : p c
        · rfl
        · exact absurd hb hc
      simp [List.takeWhile_cons, hc2]

/-! ## Replacement lemmas -/

theorem isPrefixOf_self (l : List Char) : l.isPrefixOf l = true := by
  induction l with
  | nil => rfl
  | cons c cs ih =>
    show ((c == c) && cs.isPrefixOf cs) = true
    simp [ih]

theorem pyReplaceGo_nil_input (pat rep : List Char) (fuel : Nat) :
    pyReplaceGo pat rep fuel [] = [] := by
  cases fuel <;> rfl

theorem pyReplaceGo_id (hd : Char) (pr rep : List Char) (fuel : Nat) (s : List Char)
    (h : hd ∉ s) : pyReplaceGo (hd :: pr) rep fuel s = s := by
  induction fuel generalizing s with
  | zero => rfl
  | succ f ih =>
    cases s with
    | nil => rfl
    | cons c rest =>
      have hne : hd ≠ c := fun he => h (by simp [he])
      have hpre : (hd :: pr).isPrefixOf (c :: rest) = false := by
        show ((hd == c) && pr.isPrefixOf rest) = false
        simp [hne]
      have hm : hd ∉ rest := fun hm => h (by simp [hm])
      simp [pyReplaceGo, hpre, ih rest hm]

theorem pyReplace_id (hd : Char) (pr rep s : List Char) (h : hd ∉ s) :
    pyReplace (hd :: pr) rep s = s := by
  simp only [pyReplace, if_neg (by simp : ¬ (hd :: pr) = ([] : List Char))]
  exact pyReplaceGo_id hd pr rep s.length s h

theorem pyReplaceGo_strip (hd : Char) (pr : List Char) (fuel : Nat) :
    ∀ s : List Char, hd ∉ s → s.length + 1 ≤ fuel →
      pyReplaceGo (hd :: pr) [] fuel (s ++ hd :: pr) = s := by
  induction fuel with
  | zero =>
    intro s _ hle
    exact absurd hle (by omega)
  | succ f ih =>
    intro s h hle
    cases s with
    | nil =>
      have hpre : (hd :: pr).isPrefixOf (hd :: pr) = true := isPrefixOf_self _
      simp [pyReplaceGo, hpre, pyReplaceGo_nil_input]
    | cons c rest =>
      have hne : hd ≠ c := fun he => h (by simp [he])
      have hpre : (hd :: pr).isPrefixOf (c :: (rest ++ hd :: pr)) = false := by
        show ((hd == c) && pr.isPrefixOf (rest ++ hd :: pr)) = false
        have hb : (hd == c) = false := beq_eq_false_iff_ne.mpr hne
        simp [hb]
      have hm : hd ∉ rest := fun hmm => h (by simp [hmm])
      have hlen : rest.length + 1 ≤ f := by
        simp only [List.length_cons] at hle
        omega
      show pyReplaceGo (hd :: pr) [] (f + 1) (c :: (rest ++ hd :: pr)) = c :: rest
      simp only [pyReplaceGo, hpre]
      simp [ih rest hm hlen]

theorem pyReplace_strip (hd : Char) (pr s : List Char) (h : hd ∉ s) :
    pyReplace (hd :: pr) [] (s ++ hd :: pr) = s := by
  simp only [pyReplace, if_neg (by simp : ¬ (hd :: pr) = ([] : List Char))]
  exact pyReplaceGo_strip hd pr (s ++ hd :: pr).length s h (by simp)

/-! ## Ordering lemmas -/

theorem lexLe_total : ∀ a b : List Char, lexLe a b = true ∨ lexLe b a = true := by
  intro a
  induction a with
  | nil => intro b; exact Or.inl rfl
  | cons x xs ih =>
    intro b
    cases b with
    | nil => exact Or.inr rfl
    | cons y ys =>
      rcases Nat.lt_trichotomy x.toNat y.toNat with h | h | h
      · left; simp [lexLe, h]
      · have h1 : ¬ x.toNat < y.toNat := by omega
        have h2 : ¬ y.toNat < x.toNat := by omega
        rcases ih ys with hl | hr
        · left; simp [lexLe, h1, h2, hl]
        · right; simp [lexLe, h1, h2, hr]
      · right; simp [lexLe, h]

theorem lexLe_trans : ∀ a b c : List Char,
    lexLe a b = true → lexLe b c = true → lexLe a c = true := by
  intro a
  induction a with
  | nil => intro b c _ _; rfl
  | cons x xs ih =>
    intro b c h1 h2
    cases b with
    | nil => simp [lexLe] at h1
    | cons y ys =>
      cases c with
      | nil => simp [lexLe] at h2
      | cons z zs =>
        rcases Nat.lt_trichotomy x.toNat y.toNat with hxy | hxy | hxy
        · rcases Nat.lt_trichotomy y.toNat z.toNat with hyz | hyz | hyz
          · have h3 : x.toNat < z.toNat := by omega
            simp [lexLe, h3]
          · have h3 : x.toNat < z.toNat := by omega
            simp [lexLe, h3]
          · have h3 : ¬ y.toNat < z.toNat := by omega
            simp [lexLe, h3, hyz] at h2
        · rcases Nat.lt_trichotomy y.toNat z.toNat with hyz | hyz | hyz
          · have h3 : x.toNat < z.toNat := by omega
            simp [lexLe, h3]
          · have hn1 : ¬ x.toNat < y.toNat := by omega
            have hn2 : ¬ y.toNat < x.toNat := by omega
            have hn3 : ¬ y.toNat < z.toNat := by omega
            have hn4 : ¬ z.toNat < y.toNat := by omega
            have hn5 : ¬ x.toNat < z.toNat := by omega
            have hn6 : ¬ z.toNat < x.toNat := by omega
            simp only [lexLe, if_neg hn1, if_neg hn2] at h1
            simp only [lexLe, if_neg hn3, if_neg hn4] at h2
            simp [lexLe, hn5, hn6, ih ys zs h1 h2]
          · have h3 : ¬ y.toNat < z.toNat := by omega
            simp [lexLe, h3, hyz] at h2
        · have h3 : ¬ x.toNat < y.toNat := by omega
          simp [lexLe, h3, hxy] at h1

theorem pvLeB_total (a b : PV) : pvLeB a b = true ∨ pvLeB b a = true := by
  cases a <;> cases b <;>
    simp only [pvLeB, pvRank, decide_eq_true_eq] <;>
    first
      | omega
      | exact lexLe_total _ _

theorem pvLeB_trans (a b c : PV) (h1 : pvLeB a b = true) (h2 : pvLeB b c = true) :
    pvLeB a c = true := by
  cases a <;> cases b <;> cases c <;>
    simp only [pvLeB, pvRank, decide_eq_true_eq] at h1 h2 ⊢ <;>
    first
      | omega
      | exact lexLe_trans _ _ _ h1 h2

/-! ## Claim C1: identifier lookup contract -/

/-- C1 counterexample: the claim fails on the code.  The store holds a rule
under the exact textual key `"100"`, the queried identifier is the same text
`"100"`, yet `get_rule_by_id` returns nothing: `int("100")` succeeds, and
`self.rules.get(100)` returns `None` instead of raising, so the textual
fallback of lines 209–212 is never reached. -/
theorem get_rule_by_id_misses_textual_key :
    alookup store1 (PV.str ("100".toList)) = some rX ∧
    get_rule_by_id store1 (PV.str ("100".toList)) = .ok none := by
  decide

/-- C1 (amended): for every policy store, a queried identifier on which
`int()` succeeds is looked up only under its numeric form (with no textual
fallback, because `dict.get` returns `None` rather than raising), and a
queried identifier on which `int()` raises `ValueError` is looked up by exact
textual equality. -/
theorem get_rule_by_id_contract (store : Store) :
    (∀ rid n, pyIntOf rid = .ok n →
      get_rule_by_id store rid = .ok (alookup store (PV.int n))) ∧
    (∀ t, parseInt t = none →
      get_rule_by_id store (PV.str t) = .ok (alookup store (PV.str t))) := by
  constructor
  · intro rid n h
    simp [get_rule_by_id, get_rule_by_idT, h, Except.map]
  · intro t h
    have hp : pyIntOf (PV.str t) = .valueError := by simp [pyIntOf, h]
    cases hlook : alookup store (PV.str t) <;>
      simp [get_rule_by_id, get_rule_by_idT, hp, hlook, pyStrV, Except.map]

/-- Witness for the amended C1 contract at concrete inputs. -/
theorem get_rule_by_id_contract_witness :
    pyIntOf (PV.int 100) = .ok 100 ∧
    get_rule_by_id store1 (PV.int 100) = .ok (alookup store1 (PV.int 100)) ∧
    parseInt ("abc".toList) = none ∧
    get_rule_by_id store1 (PV.str ("abc".toList)) = .ok (alookup store1 (PV.str ("abc".toList))) :=
  ⟨by decide, (get_rule_by_id_contract store1).1 (PV.int 100) 100 (by decide),
   by decide, (get_rule_by_id_contract store1).2 ("abc".toList) (by decide)⟩

/-! ## Claim C2: duplicate identifiers -/

/-- C2 counterexample: the claim fails on the code.  Building a policy with
`from_rules` from a collection holding two rules with identifier `"100"`
succeeds (no error is raised), and the resulting store holds a single record
whose level is the second rule's — line 67 of `policy.py` silently replaces
the earlier record. -/
theorem from_rules_silently_replaces_duplicate :
    (from_rules [mColl2]).map (fun s => s.map Prod.fst) = .ok [PV.str ("100".toList)] ∧
    (from_rules [mColl2]).map (fun s => s.map (fun q => q.2.level)) =
      .ok [PV.str ("2".toList)] := by
  decide

/-- C2 (amended): only the tabular load path treats a duplicate identifier as
fatal — `Policy._load` raises an error carrying both the new and the
previously stored record; the document-tree path (`Policy.from_rules`,
line 67) silently replaces the earlier record in place, leaving the key set
unchanged. -/
theorem duplicate_insertion_by_source (st : Store) (r old : PolicyRule)
    (h : alookup st r.id = some old) :
    loadInsert st r = .error (r, old) ∧
    (insertFromRules st r).map Prod.fst = st.map Prod.fst ∧
    alookup (insertFromRules st r) r.id = some r := by
  refine ⟨?_, ?_, ?_⟩
  · simp [loadInsert, h]
  · exact keys_dictUpsert_present st r.id r (by simp [h])
  · rw [insertFromRules, alookup_dictUpsert, if_pos rfl]

/-- Witness for the amended C2 statement at concrete inputs. -/
theorem duplicate_insertion_by_source_witness :
    alookup store1 rX.id = some rX ∧
    (loadInsert store1 rX = .error (rX, rX) ∧
      (insertFromRules store1 rX).map Prod.fst = store1.map Prod.fst ∧
      alookup (insertFromRules store1 rX) rX.id = some rX) :=
  ⟨by decide, duplicate_insertion_by_source store1 rX rX (by decide)⟩

/-! ## Claim C3: the level remap formula -/

/-- C3: the computed level mapping is
`round((old_level - 1) / (old_max - 1) * (new_max - 1) + 1)` under round half
to even; with `old_max = 15`, `new_max = 10` it sends 15 to 10, 1 to 1, and 8
(whose fractional value is exactly 5.5) to 6; the extra value 22 (exactly
14.5) goes down to 14, separating round-half-to-even from round-half-up. -/
theorem remap_reference_values :
    remap 15 15 10 = 10 ∧ remap 1 15 10 = 1 ∧ remap 8 15 10 = 6 ∧ remap 22 15 10 = 14 := by
  refine ⟨?_, ?_, ?_, ?_⟩
  · have h : (((15:Int):ℚ) - 1) / (((15:Int):ℚ) - 1) * (((10:Int):ℚ) - 1) + 1 = 10 := by
      norm_num
    rw [remap, h, roundHalfEven]
    norm_num
  · have h : (((1:Int):ℚ) - 1) / (((15:Int):ℚ) - 1) * (((10:Int):ℚ) - 1) + 1 = 1 := by
      norm_num
    rw [remap, h, roundHalfEven]
    norm_num
  · have h : (((8:Int):ℚ) - 1) / (((15:Int):ℚ) - 1) * (((10:Int):ℚ) - 1) + 1 = 11/2 := by
      norm_num
    rw [remap, h, roundHalfEven]
    norm_num
  · have h : (((22:Int):ℚ) - 1) / (((15:Int):ℚ) - 1) * (((10:Int):ℚ) - 1) + 1 = 29/2 := by
      norm_num
    rw [remap, h, roundHalfEven]
    norm_num

/-! ## Claim C4: single-file write order -/

/-- C4 counterexample: the claim fails on the code.  A manager holding the
collection with filename priority 20 before the one with priority 10 writes
the priority-20 bytes first: `_write_file` iterates `self.collections` in
stored order and never consults priorities (the manager-side collection
carries none). -/
theorem writeFile_not_priority_ordered :
    writeFileBytes [sCollB, sCollA] = ("<gB/>".toList) ++ ("<gA/>".toList) ∧
    collPriority sCollB = some 20 ∧
    collPriority sCollA = some 10 ∧
    collectionBytes sCollB ≠ collectionBytes sCollA := by
  decide

/-- C4 (amended): the single output file holds the collections' serialized
bodies concatenated in the manager's stored (discovery) order, each body
normalized by replacing `&gt;` with `>`; no reordering by priority occurs. -/
theorem writeFile_list_order (cs : List SCollection) :
    writeFileBytes cs = (cs.map collectionBytes).flatten := by
  induction cs with
  | nil => rfl
  | cons c rest ih => simp [writeFileBytes, ih]

/-! ## Claim C5: the collection identity resolver -/

theorem digit_ne_hyphen (c : Char) (h : c.isDigit = true) : (c != '-') = true := by
  cases heq : (c == '-') with
  | false => simp [bne, heq]
  | true =>
    have he : c = '-' := eq_of_beq heq
    rw [he] at h
    exact absurd h (by decide)

theorem mem_of_mem_takeWhile (p : Char → Bool) (l : List Char) (x : Char)
    (h : x ∈ l.takeWhile p) : x ∈ l := by
  induction l with
  | nil => simp at h
  | cons c cs ih =>
    rw [List.takeWhile_cons] at h
    by_cases hc : p c = true
    · rw [if_pos hc] at h
      rcases List.mem_cons.mp h with he | hm
      · exact List.mem_cons.mpr (Or.inl he)
      · exact List.mem_cons.mpr (Or.inr (ih hm))
    · rw [if_neg hc] at h
      simp at h

/-- C5 counterexample: the claim fails on the code.  For
`0016-windows-audit_rules.xml` the resolver recovers name `windows`, not the
whole hyphen-containing token `windows-audit`: line 128 of `policy.py` takes
`filename.split('-')[1]`, the text between the first and second hyphens. -/
theorem mkCollection_splits_hyphenated_token :
    mkCollection ("0016-windows-audit_rules.xml".toList) =
      some ⟨("0016-windows-audit_rules.xml".toList), ("windows".toList), some 16⟩ ∧
    ("windows".toList) ≠ ("windows-audit".toList) := by
  decide

/-- C5 (amended): for `<digits>-<token>.xml` the resolver yields priority
equal to the numeric value of the digit run and name equal to the part of the
token before its first hyphen with every `_rules` occurrence removed (for a
hyphen-free token this is the whole token); for `<token>.xml` with no leading
digit it yields the token with `_rules` occurrences removed and no priority;
and any filename matching neither convention is a fatal malformed-name
error (`ValueError`, modelled as `none`). -/
theorem mkCollection_name_priority :
    (∀ ds tok : List Char, ds ≠ [] → (∀ c ∈ ds, c.isDigit = true) →
      tok ≠ [] → (∀ c ∈ tok, tokChar c = true) →
      mkCollection (ds ++ '-' :: (tok ++ xmlExt)) =
        some ⟨ds ++ '-' :: (tok ++ xmlExt),
              pyReplace rulesSuffix [] (tok.takeWhile (fun c => c != '-')),
              some (digitsToNat ds)⟩) ∧
    (∀ (c0 : Char) (cs : List Char), c0.isDigit = false → tokChar c0 = true →
      (∀ c ∈ cs, tokChar c = true) →
      mkCollection ((c0 :: cs) ++ xmlExt) =
        some ⟨(c0 :: cs) ++ xmlExt, pyReplace rulesSuffix [] (c0 :: cs), none⟩) ∧
    (∀ s : List Char, matchNumbered s = false → matchPlain s = false →
      mkCollection s = none) := by
  have hdigDash : Char.isDigit '-' = false := by decide
  have htokDot : tokChar '.' = false := by decide
  have hxmlShape : xmlExt = '.' :: ("xml".toList) := by decide
  refine ⟨?_, ?_, ?_⟩
  · intro ds tok hds hdsd htok htokc
    have hA : (ds ++ '-' :: (tok ++ xmlExt)).takeWhile Char.isDigit = ds := by
      rw [takeWhile_append_all Char.isDigit ds _ hdsd]
      simp [List.takeWhile_cons, hdigDash]
    have hB : (ds ++ '-' :: (tok ++ xmlExt)).dropWhile Char.isDigit = '-' :: (tok ++ xmlExt) := by
      rw [dropWhile_append_all Char.isDigit ds _ hdsd]
      simp [List.dropWhile_cons, hdigDash]
    have hTW : (tok ++ xmlExt).takeWhile tokChar = tok := by
      rw [takeWhile_append_all tokChar tok _ htokc,
        show xmlExt.takeWhile tokChar = [] from by decide]
      simp
    have hDW : (tok ++ xmlExt).dropWhile tokChar = xmlExt := by
      rw [dropWhile_append_all tokChar tok _ htokc]
      decide
    have hC : matchNumbered (ds ++ '-' :: (tok ++ xmlExt)) = true := by
      simp only [matchNumbered, hA, hB, hTW, hDW]
      simp [hds, htok]
    have hdsh : ∀ c ∈ ds, (fun c => c != '-') c = true :=
      fun c hc => digit_ne_hyphen c (hdsd c hc)
    have hFS : firstSegment (ds ++ '-' :: (tok ++ xmlExt)) = ds := by
      rw [firstSegment, takeWhile_append_all _ ds _ hdsh]
      simp [List.takeWhile_cons]
    have hSS : secondSegment (ds ++ '-' :: (tok ++ xmlExt)) =
        (tok ++ xmlExt).takeWhile (fun c => c != '-') := by
      rw [secondSegment, dropWhile_append_all _ ds _ hdsh]
      simp [List.dropWhile_cons]
    have hdotTok : '.' ∉ tok := fun hmem => absurd (htokc '.' hmem) (by decide)
    have hName : pyReplace xmlExt [] (secondSegment (ds ++ '-' :: (tok ++ xmlExt))) =
        tok.takeWhile (fun c => c != '-') := by
      rw [hSS]
      by_cases hm : '-' ∈ tok
      · have hstop : ∃ x ∈ tok, (fun c => c != '-') x = false := ⟨'-', hm, by decide⟩
        rw [takeWhile_append_stop _ _ _ hstop]
        have hdot : '.' ∉ tok.takeWhile (fun c => c != '-') :=
          fun hmem => hdotTok (mem_of_mem_takeWhile _ _ _ hmem)
        rw [hxmlShape]
        exact pyReplace_id '.' ("xml".toList) [] _ hdot
      · have halltok : ∀ c ∈ tok, (fun c => c != '-') c = true := by
          intro c hc
          have hne : c ≠ '-' := fun he => hm (he ▸ hc)
          simp [bne, hne]
        rw [takeWhile_append_all _ _ _ halltok,
          show xmlExt.takeWhile (fun c => c != '-') = xmlExt from by decide,
          hxmlShape, pyReplace_strip '.' ("xml".toList) tok hdotTok]
        exact (takeWhile_all _ tok halltok).symm
    simp only [mkCollection, hC, if_true, hName, hFS]
  · intro c0 cs h0 h0t hcs
    have hall : ∀ c ∈ c0 :: cs, tokChar c = true := by
      intro c hc
      rcases List.mem_cons.mp hc with he | hm
      · rw [he]; exact h0t
      · exact hcs c hm
    have hMN : matchNumbered ((c0 :: cs) ++ xmlExt) = false := by
      simp only [matchNumbered]
      rw [show ((c0 :: cs) ++ xmlExt).takeWhile Char.isDigit = [] from by
        simp [List.takeWhile_cons, h0]]
      simp
    have hTW : ((c0 :: cs) ++ xmlExt).takeWhile tokChar = c0 :: cs := by
      rw [takeWhile_append_all tokChar _ _ hall,
        show xmlExt.takeWhile tokChar = [] from by decide]
      simp
    have hDW : ((c0 :: cs) ++ xmlExt).dropWhile tokChar = xmlExt := by
      rw [dropWhile_append_all tokChar _ _ hall]
      decide
    have hMP : matchPlain ((c0 :: cs) ++ xmlExt) = true := by
      simp only [matchPlain, hTW, hDW]
      simp
    have hdot : '.' ∉ c0 :: cs := fun hmem => absurd (hall '.' hmem) (by decide)
    have hName : pyReplace xmlExt [] ((c0 :: cs) ++ xmlExt) = c0 :: cs := by
      rw [hxmlShape]
      exact pyReplace_strip '.' ("xml".toList) (c0 :: cs) hdot
    simp only [mkCollection, hMN, hMP, if_true, hName]
    simp
  · intro s h1 h2
    simp [mkCollection, h1, h2]

/-- Witness for the amended C5 statement, exercising all three branches:
a numbered filename, a digit-free plain filename, and a malformed filename
containing a space. -/
theorem mkCollection_name_priority_witness :
    ((("0016".toList) ≠ [] ∧ (∀ c ∈ ("0016".toList), c.isDigit = true) ∧
      ("wazuh_rules".toList) ≠ [] ∧ (∀ c ∈ ("wazuh_rules".toList), tokChar c = true)) ∧
    mkCollection (("0016".toList) ++ '-' :: (("wazuh_rules".toList) ++ xmlExt)) =
      some ⟨("0016".toList) ++ '-' :: (("wazuh_rules".toList) ++ xmlExt),
            pyReplace rulesSuffix [] (("wazuh_rules".toList).takeWhile (fun c => c != '-')),
            some (digitsToNat ("0016".toList))⟩) ∧
    ((('w' : Char).isDigit = false ∧ tokChar 'w' = true ∧
      (∀ c ∈ ("azuh_rules".toList), tokChar c = true)) ∧
    mkCollection (('w' :: ("azuh_rules".toList)) ++ xmlExt) =
      some ⟨('w' :: ("azuh_rules".toList)) ++ xmlExt,
            pyReplace rulesSuffix [] ('w' :: ("azuh_rules".toList)), none⟩) ∧
    ((matchNumbered ("x y.xml".toList) = false ∧ matchPlain ("x y.xml".toList) = false) ∧
    mkCollection ("x y.xml".toList) = none) :=
  ⟨⟨by decide,
    (mkCollection_name_priority).1 ("0016".toList) ("wazuh_rules".toList)
      (by decide) (by decide) (by decide) (by decide)⟩,
   ⟨by decide,
    (mkCollection_name_priority).2.1 'w' ("azuh_rules".toList)
      (by decide) (by decide) (by decide)⟩,
   ⟨by decide,
    (mkCollection_name_priority).2.2 ("x y.xml".toList) (by decide) (by decide)⟩⟩

/-! ## Claim C6: the priority fixup pass -/

theorem fixupGo_specAssign (cs : List Collection) (m : Nat) :
    ∀ k : Nat, fixupGo (m + 100 * k) cs = specAssignGo m k cs := by
  induction cs with
  | nil => intro k; rfl
  | cons c rest ih =>
    intro k
    cases hp : c.priority with
    | some p => simp [fixupGo, specAssignGo, hp, ih k]
    | none =>
      have harith : m + 100 * k + 100 = m + 100 * (k + 1) := by ring
      simp only [fixupGo, specAssignGo, hp, harith, ih (k + 1)]

/-- C6: when at least one collection carries a priority, `fixup` leaves every
assigned priority unchanged and gives the `k`-th priority-less collection (in
iteration order) priority `max + 100 * (k + 1)` — the running maximum plus
100 per unresolved collection, strictly increasing with gaps of 100 — while
regenerating its filename as the 4-digit zero-padded priority, a hyphen, its
name, and `_rules.xml`, exactly the assignment described by `specAssignGo`. -/
theorem fixup_assigns_increasing_priorities (cs : List Collection) (m : Nat)
    (h : (cs.filterMap Collection.priority).max? = some m) :
    fixup cs = some (specAssignGo m 0 cs) := by
  unfold fixup
  rw [h]
  have := fixupGo_specAssign cs m 0
  simpa using this

/-- Witness for C6 at the specification's example: priorities 5, none, none
become 5, 105, 205 with regenerated filenames. -/
theorem fixup_assigns_increasing_priorities_witness :
    (csFix.filterMap Collection.priority).max? = some 5 ∧
    fixup csFix = some (specAssignGo 5 0 csFix) ∧
    specAssignGo 5 0 csFix =
      [⟨("0005-a_rules.xml".toList), ("a".toList), some 5⟩,
       ⟨("0105-b_rules.xml".toList), ("b".toList), some 105⟩,
       ⟨("0205-c_rules.xml".toList), ("c".toList), some 205⟩] :=
  ⟨by decide, fixup_assigns_increasing_priorities csFix 5 (by decide), by decide⟩

/-! ## Claim C7: document rules lacking id or level -/

/-- C7 counterexample: the claim fails on the code.  Building from a document
collection whose single rule has no `id` attribute neither warns-and-skips
the rule nor aborts: `from_rules` succeeds and the store holds one record,
keyed by `None`, whose `id` field is `None` — lines 62–63 of `policy.py`
always populate the `id` and `level` keys (possibly with `None`), so the
mandatory-field check of `Rule.__init__` never fires on this path. -/
theorem from_rules_keeps_idless_rule :
    (from_rules [mColl7]).map (fun s => s.map Prod.fst) = .ok [PV.null] ∧
    (from_rules [mColl7]).map (fun s => s.map (fun q => q.2.id)) = .ok [PV.null] := by
  decide

/-- C7 (amended): the document-tree builder never skips or rejects a rule
node over a missing `id` or `level`: for every collection and every rule
node, `Rule` construction succeeds, the record's `id` and `level` fields are
the corresponding attribute values with `None` standing in for an absent
attribute, and the record is stored under that (possibly `None`) identifier. -/
theorem nodupKeys_foldl_upsert {K V : Type} [DecidableEq K] (kv : List (K × V))
    (init : List (K × V)) (h : (init.map Prod.fst).Nodup) :
    ((kv.foldl (fun d p => dictUpsert d p.1 p.2) init).map Prod.fst).Nodup := by
  induction kv generalizing init with
  | nil => simpa using h
  | cons p rest ih =>
    simp only [List.foldl_cons]
    exact ih _ (nodupKeys_dictUpsert _ _ _ h)

theorem foldl_upsert_optToPV (l : List (List Char × Option (List Char)))
    (init : List (List Char × PV)) :
    l.foldl (fun d p => dictUpsert d p.1 (optToPV p.2)) init =
      (l.map (fun p => (p.1, optToPV p.2))).foldl (fun d p => dictUpsert d p.1 p.2) init := by
  induction l generalizing init with
  | nil => rfl
  | cons p rest ih => simp [ih]

theorem from_rules_constructs_every_rule (c : Collection) (e : XRule) :
    ∃ r, mkRule (ruleContents c e) = .ok r ∧
      r.id = optToPV (getAttr e idKey) ∧
      r.level = optToPV (getAttr e levelKey) ∧
      ∀ st : Store, alookup (insertFromRules st r) r.id = some r := by
  have hLI : ¬ levelKey = idKey := by decide
  have hCL : ¬ collectionKey = levelKey := by decide
  have hCI : ¬ collectionKey = idKey := by decide
  have hndBase :
      ((e.children.foldl (fun d p => dictUpsert d p.1 (optToPV p.2)) []).map Prod.fst).Nodup := by
    rw [foldl_upsert_optToPV]
    exact nodupKeys_foldl_upsert _ [] (by simp)
  have hndKv : ((ruleContents c e).map Prod.fst).Nodup := by
    unfold ruleContents
    exact nodupKeys_dictUpsert _ _ _
      (nodupKeys_dictUpsert _ _ _ (nodupKeys_dictUpsert _ _ _ hndBase))
  have hmemId : (idKey, optToPV (getAttr e idKey)) ∈ ruleContents c e := by
    unfold ruleContents
    exact pair_mem_dictUpsert_self _ _ _
  have hmemLevel : (levelKey, optToPV (getAttr e levelKey)) ∈ ruleContents c e := by
    unfold ruleContents
    exact pair_mem_dictUpsert_other _ _ _ _ _ hLI (pair_mem_dictUpsert_self _ _ _)
  have hmemColl : (collectionKey, PV.coll c) ∈ ruleContents c e := by
    unfold ruleContents
    exact pair_mem_dictUpsert_other _ _ _ _ _ hCI
      (pair_mem_dictUpsert_other _ _ _ _ _ hCL (pair_mem_dictUpsert_self _ _ _))
  have hguard : idKey ∈ (ruleContents c e).map Prod.fst ∧
      levelKey ∈ (ruleContents c e).map Prod.fst ∧
      collectionKey ∈ (ruleContents c e).map Prod.fst :=
    ⟨List.mem_map_of_mem Prod.fst hmemId, List.mem_map_of_mem Prod.fst hmemLevel,
     List.mem_map_of_mem Prod.fst hmemColl⟩
  refine ⟨⟨(ruleContents c e).foldl (fun d p => dictUpsert d p.1 p.2)
      [(idKey, PV.null), (levelKey, PV.int 0)]⟩, ?_, ?_, ?_, ?_⟩
  · simp [mkRule, hguard.1, hguard.2.1, hguard.2.2]
  · simp [PolicyRule.id,
      alookup_foldl_of_mem_nodup (ruleContents c e) _ idKey _ hndKv hmemId]
  · simp [PolicyRule.level,
      alookup_foldl_of_mem_nodup (ruleContents c e) _ levelKey _ hndKv hmemLevel]
  · intro st
    rw [insertFromRules, alookup_dictUpsert, if_pos rfl]


/-! ## Claim C8: level and overwrite attributes -/

theorem setAttr_level_overwrite (e : XRule) (ow : Bool) (n : Int) :
    getAttr (if ow = true then setAttr (setAttr e levelKey (intToChars n)) overwriteKey yesVal
        else setAttr e levelKey (intToChars n)) levelKey = some (intToChars n) ∧
    (ow = true → getAttr
        (if ow = true then setAttr (setAttr e levelKey (intToChars n)) overwriteKey yesVal
          else setAttr e levelKey (intToChars n)) overwriteKey = some yesVal) := by
  have hLO : ¬ levelKey = overwriteKey := by decide
  cases ow with
  | true =>
    constructor
    · rw [if_pos rfl, getAttr_setAttr_other _ _ _ _ hLO, getAttr_setAttr_self]
    · intro _
      rw [if_pos rfl, getAttr_setAttr_self]
  | false =>
    constructor
    · rw [if_neg Bool.false_ne_true, getAttr_setAttr_self]
    · intro hc
      simp at hc

/-- C8: whenever `apply_policy` processes one document rule successfully, the
resulting rule element carries a `level` attribute equal to the decimal text
of the determined new level `n` — `n` is the integer value of the policy
entry's level when the identifier lookup finds one, and the computed
`remap(old_level, old_max, new_max)` of the rule's parsed old level when it
does not — and when the overwrite flag is set it also carries
`overwrite="yes"`, on every processed rule, including those whose new level
equals the old one. -/
theorem applyRule_sets_level_and_overwrite (p : Store) (omx nmx : Int) (ow : Bool)
    (e eR : XRule) (oc : Outcome) (pR : Store)
    (h : applyRuleS p omx nmx ow e = some ((eR, oc), pR)) :
    ∃ n : Int,
      getAttr eR levelKey = some (intToChars n) ∧
      (ow = true → getAttr eR overwriteKey = some yesVal) ∧
      ((∃ r, get_rule_by_id p (optToPV (getAttr e idKey)) = .ok (some r) ∧
          pyIntOf r.level = .ok n) ∨
       (get_rule_by_id p (optToPV (getAttr e idKey)) = .ok none ∧
        ∃ lvlStr oldLevel, getAttr e levelKey = some lvlStr ∧
          parseInt lvlStr = some oldLevel ∧ n = remap oldLevel omx nmx)) := by
  cases hl : getAttr e levelKey with
  | none => simp [applyRuleS, hl] at h
  | some lvlStr =>
    cases hpl : parseInt lvlStr with
    | none => simp [applyRuleS, hl, hpl] at h
    | some oldLevel =>
      cases hg : get_rule_by_idT p (optToPV (getAttr e idKey)) with
      | error u => simp [applyRuleS, hl, hpl, hg] at h
      | ok v =>
        obtain ⟨rp, pmid⟩ := v
        have hgr : get_rule_by_id p (optToPV (getAttr e idKey)) = .ok rp := by
          rw [get_rule_by_id, hg]
          rfl
        cases rp with
        | some r =>
          cases hpi : pyIntOf r.level with
          | ok m =>
            simp only [applyRuleS, hl, hpl, hg, hpi] at h
            simp only [Option.some.injEq, Prod.mk.injEq] at h
            obtain ⟨⟨he, _⟩, _⟩ := h
            subst he
            exact ⟨m, (setAttr_level_overwrite e ow m).1, (setAttr_level_overwrite e ow m).2,
              Or.inl ⟨r, hgr, hpi⟩⟩
          | valueError => simp [applyRuleS, hl, hpl, hg, hpi] at h
          | typeError => simp [applyRuleS, hl, hpl, hg, hpi] at h
        | none =>
          by_cases homx : omx = 1
          · simp [applyRuleS, hl, hpl, hg, homx] at h
          · simp only [applyRuleS, hl, hpl, hg, if_neg homx] at h
            simp only [Option.some.injEq, Prod.mk.injEq] at h
            obtain ⟨⟨he, _⟩, _⟩ := h
            subst he
            exact ⟨remap oldLevel omx nmx,
              (setAttr_level_overwrite e ow (remap oldLevel omx nmx)).1,
              (setAttr_level_overwrite e ow (remap oldLevel omx nmx)).2,
              Or.inr ⟨hgr, lvlStr, oldLevel, rfl, hpl, rfl⟩⟩

/-- Witness for C8 at two rules: one whose level actually changes (old level
3 rewritten to the policy level 7), and one NO CHANGE rule (old = new = 4)
that still receives the `overwrite` marker. -/
theorem applyRule_sets_level_and_overwrite_witness :
    (applyRuleS pUp 15 10 false eUp = some ((eUpRes, Outcome.upgrade), pUp) ∧
      getAttr eUp levelKey = some ("3".toList) ∧
      getAttr eUpRes levelKey = some ("7".toList) ∧
      ("7".toList) ≠ ("3".toList)) ∧
    (∃ n : Int, getAttr eUpRes levelKey = some (intToChars n) ∧
      (false = true → getAttr eUpRes overwriteKey = some yesVal) ∧
      ((∃ r, get_rule_by_id pUp (optToPV (getAttr eUp idKey)) = .ok (some r) ∧
          pyIntOf r.level = .ok n) ∨
       (get_rule_by_id pUp (optToPV (getAttr eUp idKey)) = .ok none ∧
        ∃ lvlStr oldLevel, getAttr eUp levelKey = some lvlStr ∧
          parseInt lvlStr = some oldLevel ∧ n = remap oldLevel 15 10))) ∧
    (applyRuleS p300 15 10 true e300 = some ((e300Res, Outcome.noChange), p300) ∧
      (∃ n : Int, getAttr e300Res levelKey = some (intToChars n) ∧
        (true = true → getAttr e300Res overwriteKey = some yesVal) ∧
        ((∃ r, get_rule_by_id p300 (optToPV (getAttr e300 idKey)) = .ok (some r) ∧
            pyIntOf r.level = .ok n) ∨
         (get_rule_by_id p300 (optToPV (getAttr e300 idKey)) = .ok none ∧
          ∃ lvlStr oldLevel, getAttr e300 levelKey = some lvlStr ∧
            parseInt lvlStr = some oldLevel ∧ n = remap oldLevel 15 10)))) :=
  ⟨⟨by decide, by decide, by decide, by decide⟩,
   applyRule_sets_level_and_overwrite pUp 15 10 false eUp eUpRes Outcome.upgrade pUp (by decide),
   ⟨by decide,
    applyRule_sets_level_and_overwrite p300 15 10 true e300 e300Res Outcome.noChange p300
      (by decide)⟩⟩


/-! ## Claim C9: reconciliation leaves the policy store unchanged -/

theorem get_rule_by_idT_store (p : Store) (rid : PV) (res : Option PolicyRule) (p1 : Store)
    (h : get_rule_by_idT p rid = .ok (res, p1)) : p1 = p := by
  cases hi : pyIntOf rid with
  | ok n =>
    simp only [get_rule_by_idT, hi, Except.ok.injEq, Prod.mk.injEq] at h
    exact h.2.symm
  | valueError =>
    cases ha : alookup p rid with
    | some r =>
      simp only [get_rule_by_idT, hi, ha, Except.ok.injEq, Prod.mk.injEq] at h
      exact h.2.symm
    | none =>
      simp only [get_rule_by_idT, hi, ha, Except.ok.injEq, Prod.mk.injEq] at h
      exact h.2.symm
  | typeError => simp [get_rule_by_idT, hi] at h

theorem applyRuleS_store (p : Store) (omx nmx : Int) (ow : Bool) (e : XRule)
    (x : XRule × Outcome) (p1 : Store)
    (h : applyRuleS p omx nmx ow e = some (x, p1)) : p1 = p := by
  cases hl : getAttr e levelKey with
  | none => simp [applyRuleS, hl] at h
  | some lvlStr =>
    cases hpl : parseInt lvlStr with
    | none => simp [applyRuleS, hl, hpl] at h
    | some oldLevel =>
      cases hg : get_rule_by_idT p (optToPV (getAttr e idKey)) with
      | error u => simp [applyRuleS, hl, hpl, hg] at h
      | ok v =>
        obtain ⟨rp, pmid⟩ := v
        simp only [applyRuleS, hl, hpl, hg] at h
        split at h
        · exact Option.noConfusion h
        · rename_i newLevel hnew
          simp only [Option.some.injEq, Prod.mk.injEq] at h
          exact h.2.symm.trans (get_rule_by_idT_store p _ rp pmid hg)

theorem applyRulesGo_store (omx nmx : Int) (ow : Bool) :
    ∀ (es : List XRule) (p : Store) (rs : List XRule) (p2 : Store),
      applyRulesGo omx nmx ow p es = some (rs, p2) → p2 = p := by
  intro es
  induction es with
  | nil =>
    intro p rs p2 h
    simp only [applyRulesGo, Option.some.injEq, Prod.mk.injEq] at h
    exact h.2.symm
  | cons e rest ih =>
    intro p rs p2 h
    simp only [applyRulesGo] at h
    rcases Option.bind_eq_some.mp h with ⟨x, hx, hf⟩
    rcases Option.map_eq_some'.mp hf with ⟨w, hw, heq⟩
    have hxp : x.2 = p := applyRuleS_store p omx nmx ow e x.1 x.2 (by simpa using hx)
    have hwp : w.2 = x.2 := ih x.2 w.1 w.2 (by simpa using hw)
    have hp2 : p2 = w.2 := (congrArg Prod.snd heq).symm
    rw [hp2, hwp, hxp]

theorem applyPolicyGo_store (omx nmx : Int) (ow : Bool) :
    ∀ (m : List MCollection) (p : Store) (m2 : List MCollection) (p2 : Store),
      applyPolicyGo omx nmx ow p m = some (m2, p2) → p2 = p := by
  intro m
  induction m with
  | nil =>
    intro p m2 p2 h
    simp only [applyPolicyGo, Option.some.injEq, Prod.mk.injEq] at h
    exact h.2.symm
  | cons mc rest ih =>
    intro p m2 p2 h
    simp only [applyPolicyGo] at h
    rcases Option.bind_eq_some.mp h with ⟨x, hx, hf⟩
    rcases Option.map_eq_some'.mp hf with ⟨w, hw, heq⟩
    have hxp : x.2 = p := applyRulesGo_store omx nmx ow mc.rules p x.1 x.2 (by simpa using hx)
    have hwp : w.2 = x.2 := ih x.2 w.1 w.2 (by simpa using hw)
    have hp2 : p2 = w.2 := (congrArg Prod.snd heq).symm
    rw [hp2, hwp, hxp]

/-- C9: `apply_policy` never mutates the policy store — every dictionary
operation it performs on the store is a read, so the store returned by a
successful pass (threaded through every lookup) is exactly the input store,
with every rule record and all of its fields intact; only the document
elements change. -/
theorem apply_policy_preserves_policy (p : Store) (omx nmx : Int) (ow : Bool)
    (m : List MCollection) (m2 : List MCollection) (p2 : Store)
    (h : apply_policy p omx nmx ow m = some (m2, p2)) : p2 = p :=
  applyPolicyGo_store omx nmx ow m p m2 p2 h

/-- Witness for C9 at a concrete successful pass. -/
theorem apply_policy_preserves_policy_witness :
    apply_policy p300 15 10 false m300 = some (m300, p300) ∧ p300 = p300 :=
  ⟨by decide,
   apply_policy_preserves_policy p300 15 10 false m300 m300 p300 (by decide)⟩

/-! ## Claim C10: spreadsheet row order -/

theorem pySortRules_eq (l : List PolicyRule)
    (h : l.all (fun r => r.id.isInt) = true ∨ l.all (fun r => r.id.isStr) = true) :
    pySortRules l = some (List.insertionSort ruleLe l) := by
  unfold pySortRules
  rcases h with h | h
  · rw [if_pos h]
  · by_cases h1 : l.all (fun r => r.id.isInt) = true
    · rw [if_pos h1]
    · rw [if_neg h1, if_pos h]

/-- C10: for every policy store whose rules in a given collection all carry
integer identifiers or all carry textual identifiers, the row sequence
written for that collection's sheet is a permutation of those rules sorted
ascending by identifier under `ruleLe` — numeric order for integers,
code-point lexicographic order for strings — regardless of insertion order;
concretely, textual identifiers `"9"`, `"10"` come out in the lexicographic
order `"10"`, `"9"`, not the numeric one. -/
theorem rows_sorted_by_id :
    (∀ (p : Store) (c : Collection),
      (((p.map Prod.snd).filter (fun r => decide (ruleCollection r = PV.coll c))).all
          (fun r => r.id.isInt) = true ∨
        ((p.map Prod.snd).filter (fun r => decide (ruleCollection r = PV.coll c))).all
          (fun r => r.id.isStr) = true) →
      ∃ l, get_rules_by_collection p c = some l ∧ List.Sorted ruleLe l ∧
        List.Perm l
          ((p.map Prod.snd).filter (fun r => decide (ruleCollection r = PV.coll c)))) ∧
    get_rules_by_collection pLex cLex = some [rTen, rNine] := by
  constructor
  · intro p c h
    haveI : IsTotal PolicyRule ruleLe := ⟨fun a b => pvLeB_total a.id b.id⟩
    haveI : IsTrans PolicyRule ruleLe := ⟨fun a b cc h1 h2 => pvLeB_trans a.id b.id cc.id h1 h2⟩
    refine ⟨List.insertionSort ruleLe
        ((p.map Prod.snd).filter (fun r => decide (ruleCollection r = PV.coll c))),
      ?_, ?_, ?_⟩
    · rw [get_rules_by_collection, pySortRules_eq _ h]
    · exact List.sorted_insertionSort ruleLe _
    · exact List.perm_insertionSort ruleLe _
  · decide

/-- Witness for C10 at the textual-identifier store holding `"9"` before
`"10"`. -/
theorem rows_sorted_by_id_witness :
    (((pLex.map Prod.snd).filter (fun r => decide (ruleCollection r = PV.coll cLex))).all
        (fun r => r.id.isStr) = true) ∧
    (∃ l, get_rules_by_collection pLex cLex = some l ∧ List.Sorted ruleLe l ∧
      List.Perm l
        ((pLex.map Prod.snd).filter (fun r => decide (ruleCollection r = PV.coll cLex)))) :=
  ⟨by decide, (rows_sorted_by_id).1 pLex cLex (Or.inr (by decide))⟩
